import Mathlib

/-!
Verification of the timeline segment scheduler and playback synchronization
engine of the quickcuts editor.

The definitions below are a shallow embedding of the TypeScript source:

* `findSegmentIndex` / `findLoop` embed the binary search
  `findSegmentIndex` of `src/components/PreviewPanel.tsx` (JS numbers are
  modelled as exact rationals, array indices as integers so that the
  `right = mid - 1` step can reach `-1` exactly as in the source).
* `buildSegments` embeds the `segments` `useMemo` of `PreviewPanel.tsx`
  (the imperative push loop is rendered as a structural recursion
  `mediaSegments` that appends the media segments in their given order).
* `totalDuration` embeds `useTotalDuration` of `stores/projectStore.ts`.
* `jsTrim` embeds the JavaScript `String.prototype.trim` used by both.
* `PreviewState` collects the store cells (`previewTime`, `isPlaying`),
  the video-element registry `videoRefs` (an association list keyed by
  media id) and the throttle stamp `lastUpdateRef`.
* `handleVideoTimeUpdate`, `handleVideoEnded`, `coverTick`, `syncEffect`,
  `togglePlay`, `handleTimeChange` embed the correspondingly named
  handlers and effects of `PreviewPanel.tsx`; `arrowLeftSeek` /
  `arrowRightSeek` embed the arrow-key branches of `handleKeyDown` in
  `App.tsx`.
-/

namespace QuickCuts

/-- Media kind of a timeline item, `MediaFile.type` in the source. -/
inductive MediaType
  | video
  | image
deriving DecidableEq

/-- One imported media item: `{id, type, duration}` as used by the preview. -/
structure MediaFile where
  id : String
  type : MediaType
  duration : ℚ
deriving DecidableEq

instance : Inhabited MediaFile := ⟨⟨"", MediaType.video, 0⟩⟩

/-- Cover card descriptor: the `text` and `duration` fields of `CoverConfig`
that the scheduler reads (the remaining fields are presentation only). -/
structure CoverConfig where
  text : String
  duration : ℚ
deriving DecidableEq

/-- JavaScript `String.prototype.trim`: strip leading and trailing
whitespace.  Embedded directly over the character list so that it reduces
on concrete inputs. -/
def jsTrim (s : String) : String :=
  ⟨((s.data.dropWhile Char.isWhitespace).reverse.dropWhile Char.isWhitespace).reverse⟩

/-- Segment kind tag, the `type` field of the segment records built by the
`segments` memo. -/
inductive SegType
  | cover
  | media
deriving DecidableEq

/-- Payload of a segment, the `item` field: the cover descriptor for the
cover segment, the media file for a media segment. -/
inductive Payload
  | coverItem (c : CoverConfig)
  | mediaItem (f : MediaFile)
deriving DecidableEq

/-- One timeline segment as pushed by the `segments` memo of
`PreviewPanel.tsx`: `{type, startTime, endTime, item}`. -/
structure Segment where
  type : SegType
  startTime : ℚ
  endTime : ℚ
  item : Payload
deriving DecidableEq

instance : Inhabited Segment :=
  ⟨⟨SegType.media, 0, 0, Payload.mediaItem default⟩⟩

/-- Array indexing `segments[i]` for indices that are in bounds whenever the
callers of the source use them; out-of-range indices return a default. -/
def segGet (segments : List Segment) (i : ℕ) : Segment :=
  segments.getD i default

/-- Loop of `findSegmentIndex` (PreviewPanel.tsx lines 11-25).  While
`left <= right` probe `mid = floor((left+right)/2)`; return `mid` on a hit,
otherwise shrink the interval.  The fall-through after the loop returns
`segments.length - 1` (source line 28).  Note `mid` is never out of range
when entered with `0 ≤ left` and `right < segments.length`. -/
def findLoop (segments : List Segment) (time : ℚ) (left right : ℤ) : ℤ :=
  if h : left ≤ right then
    let mid := (left + right) / 2
    let segment := segGet segments mid.toNat
    if segment.startTime ≤ time ∧ time < segment.endTime then
      mid
    else if time < segment.startTime then
      findLoop segments time left (mid - 1)
    else
      findLoop segments time (mid + 1) right
  else
    (segments.length : ℤ) - 1
termination_by (right + 1 - left).toNat
decreasing_by
  all_goals
    have h1 : left ≤ (left + right) / 2 := by
      rw [Int.le_ediv_iff_mul_le (by norm_num)]
      linarith
    have h2 : (left + right) / 2 ≤ right := by
      calc (left + right) / 2 ≤ (right + right) / 2 :=
            Int.ediv_le_ediv (by norm_num) (by linarith)
        _ = (right * 2) / 2 := by ring_nf
        _ = right := Int.mul_ediv_cancel _ (by norm_num)
    omega

/-- Binary search of `PreviewPanel.tsx` lines 8-29: `-1` on the empty list,
otherwise the loop over `[0, segments.length - 1]`. -/
def findSegmentIndex (segments : List Segment) (time : ℚ) : ℤ :=
  if segments.length = 0 then -1
  else findLoop segments time 0 ((segments.length : ℤ) - 1)

/-- Sum of the media durations, the `reduce((sum, file) => sum + file.duration, 0)`
of `useTotalDuration` (projectStore.ts line 128). -/
def sumDurations (files : List MediaFile) : ℚ :=
  files.foldl (fun sum file => sum + file.duration) 0

/-- Total timeline duration, `useTotalDuration` (projectStore.ts lines
124-131): the cover counts exactly when its trimmed text is non-empty
(string truthiness of `cover.text.trim()`). -/
def totalDuration (files : List MediaFile) (cover : CoverConfig) : ℚ :=
  (if jsTrim cover.text ≠ "" then cover.duration else 0) + sumDurations files

/-- Media part of the `segments` memo: one media segment per file, in the
given order, each starting where the previous one ended (`time` runs the
accumulator of the source loop). -/
def mediaSegments (files : List MediaFile) (time : ℚ) : List Segment :=
  match files with
  | [] => []
  | file :: rest =>
      ⟨SegType.media, time, time + file.duration, Payload.mediaItem file⟩ ::
        mediaSegments rest (time + file.duration)

/-- Segment list of the `segments` memo (PreviewPanel.tsx lines 47-63): a
cover segment `[0, cover.duration)` is prepended iff `cover.text.trim()`
has positive length, then the media segments follow contiguously. -/
def buildSegments (files : List MediaFile) (cover : CoverConfig) : List Segment :=
  if 0 < (jsTrim cover.text).length then
    ⟨SegType.cover, 0, cover.duration, Payload.coverItem cover⟩ ::
      mediaSegments files cover.duration
  else
    mediaSegments files 0

/-- One registered video backend (an `HTMLVideoElement` in the registry):
its reported position, paused flag, and `duration` when known (`none`
models the falsy `NaN`/unset duration, for which `video.duration || Infinity`
leaves a seek unclamped above). -/
structure Backend where
  currentTime : ℚ
  paused : Bool
  duration : Option ℚ
deriving DecidableEq

/-- Store and ref cells the preview handlers read and write: `previewTime`,
`isPlaying`, the `videoRefs` registry, and the `lastUpdateRef` throttle
stamp (milliseconds). -/
structure PreviewState where
  previewTime : ℚ
  isPlaying : Bool
  backends : List (String × Backend)
  lastUpdate : ℚ
deriving DecidableEq

/-- Registry lookup `videoRefs.current.get(id)`. -/
def lookupBackend (id : String) : List (String × Backend) → Option Backend
  | [] => none
  | p :: rest => if p.1 = id then some p.2 else lookupBackend id rest

/-- Registry write of a new backend value for `id`, as performed by the
seek assignments `video.currentTime = ...` and by `play()` / `pause()`. -/
def writeBackend (id : String) (b : Backend) (backends : List (String × Backend)) :
    List (String × Backend) :=
  backends.map (fun p => if p.1 = id then (p.1, b) else p)

/-- The `currentSegment` memo (PreviewPanel.tsx lines 66-69):
`index >= 0 ? segments[index] : null`. -/
def currentSegment (segments : List Segment) (previewTime : ℚ) : Option Segment :=
  let index := findSegmentIndex segments previewTime
  if 0 ≤ index then some (segGet segments index.toNat) else none

/-- The `item.id` read on a segment payload; a cover payload has no id
(reading `.id` on it yields `undefined`, never equal to a backend id). -/
def payloadId : Payload → Option String
  | Payload.coverItem _ => none
  | Payload.mediaItem f => some f.id

/-- Decides `currentSegment.type === 'media' && currentSegment.item.type === 'video'`
and returns the owning media file when it holds. -/
def segVideoFile (seg : Segment) : Option MediaFile :=
  if seg.type = SegType.media then
    match seg.item with
    | Payload.coverItem _ => none
    | Payload.mediaItem f => if f.type = MediaType.video then some f else none
  else none

/-- The pause sweep `videoRefs.current.forEach((video) => { if (!video.paused) video.pause(); })`:
afterwards every registered backend is paused. -/
def pauseAll (backends : List (String × Backend)) : List (String × Backend) :=
  backends.map (fun p => (p.1, { p.2 with paused := true }))

/-- Sync effect of `PreviewPanel.tsx` lines 160-193.  When the current
segment is not a video media segment every backend is paused.  Otherwise
the owning backend, if registered, is drift-corrected (seek only when the
discrepancy exceeds 0.1 s, clamped into `[0, video.duration]`), mirrored to
the play state, and every other backend is paused; if it is not registered
the effect returns early. -/
def syncEffect (segments : List Segment) (st : PreviewState) : PreviewState :=
  match currentSegment segments st.previewTime with
  | none => { st with backends := pauseAll st.backends }
  | some seg =>
    match segVideoFile seg with
    | none => { st with backends := pauseAll st.backends }
    | some f =>
      match lookupBackend f.id st.backends with
      | none => st
      | some video =>
        let videoTime := st.previewTime - seg.startTime
        let seekTarget :=
          match video.duration with
          | some d => max 0 (min videoTime d)
          | none => max 0 videoTime
        let v1 :=
          if 1/10 < |video.currentTime - videoTime| then
            { video with currentTime := seekTarget }
          else video
        let v2 :=
          if st.isPlaying = true ∧ v1.paused = true then { v1 with paused := false }
          else if st.isPlaying = false ∧ v1.paused = false then { v1 with paused := true }
          else v1
        { st with backends :=
            st.backends.map (fun p =>
              if p.1 = f.id then (p.1, v2) else (p.1, { p.2 with paused := true })) }

/-- The `handleVideoTimeUpdate` callback (PreviewPanel.tsx lines 96-106).
A notification less than 33 ms after the previous accepted one returns with
no change at all; otherwise the throttle stamp advances and, when the
notifying backend is registered and owns the current media segment while
playing, `previewTime` becomes `min(segment.startTime + video.currentTime,
totalDuration)`. -/
def handleVideoTimeUpdate (segments : List Segment) (totalDur : ℚ)
    (st : PreviewState) (now : ℚ) (videoId : String) : PreviewState :=
  if now - st.lastUpdate < 33 then st
  else
    let st1 := { st with lastUpdate := now }
    match lookupBackend videoId st.backends, currentSegment segments st.previewTime with
    | some video, some seg =>
        if seg.type = SegType.media ∧ payloadId seg.item = some videoId ∧
            st.isPlaying = true then
          { st1 with previewTime := min (seg.startTime + video.currentTime) totalDur }
        else st1
    | _, _ => st1

/-- The `handleVideoEnded` callback (PreviewPanel.tsx lines 109-121).  The
source takes `segments.indexOf(currentSegment)`; since `currentSegment` is
by construction the array element at the binary-search index, that
reference-equality `indexOf` is exactly `findSegmentIndex`. -/
def handleVideoEnded (segments : List Segment) (st : PreviewState) : PreviewState :=
  match currentSegment segments st.previewTime with
  | none => st
  | some _ =>
    let currentIndex := (findSegmentIndex segments st.previewTime).toNat
    match segments[currentIndex + 1]? with
    | some nextSegment => { st with previewTime := nextSegment.startTime }
    | none => { st with isPlaying := false, previewTime := 0 }

/-- One tick of the cover timer effect (PreviewPanel.tsx lines 130-147).
The closure captured `startPreviewTime` (the preview time on entering the
effect), the cover segment index and its `endTime`; `elapsed` is the wall
clock delta in seconds.  On reaching `endTime` the tick advances to the
next segment or, with none left, stops and rewinds; otherwise it publishes
the new time. -/
def coverTick (segments : List Segment) (startPreviewTime : ℚ)
    (currentIndex : ℕ) (endTime : ℚ) (elapsed : ℚ) (st : PreviewState) : PreviewState :=
  let newTime := startPreviewTime + elapsed
  if endTime ≤ newTime then
    match segments[currentIndex + 1]? with
    | some nextSegment => { st with previewTime := nextSegment.startTime }
    | none => { st with isPlaying := false, previewTime := 0 }
  else
    { st with previewTime := newTime }

/-- The `togglePlay` callback (PreviewPanel.tsx lines 205-216): a no-op on
the empty timeline; pausing when playing; when starting, the play head is
rewound to 0 first iff it sits within 0.1 s of the end. -/
def togglePlay (segments : List Segment) (totalDur : ℚ) (st : PreviewState) : PreviewState :=
  if segments.length = 0 then st
  else if st.isPlaying = true then { st with isPlaying := false }
  else
    let st1 := if totalDur - 1/10 ≤ st.previewTime then { st with previewTime := 0 } else st
    { st1 with isPlaying := true }

/-- The scrubber `handleTimeChange` callback (PreviewPanel.tsx lines
219-238): publish `newTime`, force pause, and seek the backend owning the
segment at `newTime` immediately (guarded only by `videoTime >= 0`). -/
def handleTimeChange (segments : List Segment) (st : PreviewState) (newTime : ℚ) :
    PreviewState :=
  let st1 := { st with previewTime := newTime, isPlaying := false }
  let segIndex := findSegmentIndex segments newTime
  if 0 ≤ segIndex then
    let seg := segGet segments segIndex.toNat
    match segVideoFile seg with
    | some f =>
      match lookupBackend f.id st1.backends with
      | some video =>
        let videoTime := newTime - seg.startTime
        if 0 ≤ videoTime then
          { st1 with backends :=
              writeBackend f.id { video with currentTime := videoTime } st1.backends }
        else st1
      | none => st1
    | none => st1
  else st1

/-- ArrowLeft branch of `handleKeyDown` (App.tsx lines 78-82): seek back
5 s clamped at 0 and pause. -/
def arrowLeftSeek (st : PreviewState) : PreviewState :=
  { st with previewTime := max 0 (st.previewTime - 5), isPlaying := false }

/-- ArrowRight branch of `handleKeyDown` (App.tsx lines 92-96): seek
forward 5 s clamped at `totalDuration` and pause. -/
def arrowRightSeek (totalDur : ℚ) (st : PreviewState) : PreviewState :=
  { st with previewTime := min totalDur (st.previewTime + 5), isPlaying := false }

/-- Sample media list with durations 5, 3 and 4 seconds, the §8 test
vector of the design spec. -/
def sampleFiles : List MediaFile :=
  [⟨"a", MediaType.video, 5⟩, ⟨"b", MediaType.image, 3⟩, ⟨"c", MediaType.video, 4⟩]

/-- Cover descriptor whose text is blank: it contributes no segment. -/
def blankCover : CoverConfig := ⟨"", 4⟩

/-- Cover descriptor with a title set and duration 4 s. -/
def titledCover : CoverConfig := ⟨"Title", 4⟩

/-! Well-formedness of a segment list, the §3 invariant of the design
spec: segments are ascending, non-overlapping and contiguous. -/

/-- Every segment spans a nonnegative width. -/
def NonNegWidths (segments : List Segment) : Prop :=
  ∀ i, i < segments.length →
    (segGet segments i).startTime ≤ (segGet segments i).endTime

/-- Adjacent segments are contiguous: each starts where the previous ends. -/
def SegsChain (segments : List Segment) : Prop :=
  ∀ i, i + 1 < segments.length →
    (segGet segments (i + 1)).startTime = (segGet segments i).endTime

/-- Segments are ordered: earlier segments end no later than later ones
start (together with nonnegative widths). -/
def SegsOrdered (segments : List Segment) : Prop :=
  NonNegWidths segments ∧
  ∀ j, j < segments.length → ∀ i, i < j →
    (segGet segments i).endTime ≤ (segGet segments j).startTime

theorem segsOrdered_of_chain {segments : List Segment}
    (hw : NonNegWidths segments) (hc : SegsChain segments) :
    SegsOrdered segments := by
  refine ⟨hw, ?_⟩
  intro j hj i hij
  induction j with
  | zero => omega
  | succ n ih =>
    have hn : n < segments.length := by omega
    have hstep : (segGet segments n).endTime = (segGet segments (n + 1)).startTime :=
      (hc n hj).symm
    rcases Nat.lt_or_ge i n with h | h
    · exact le_trans (ih hn h) (le_trans (hw n hn) hstep.le)
    · have hin : i = n := by omega
      subst hin
      exact hstep.le

theorem mid_bounds {left right : ℤ} (h : left ≤ right) :
    left ≤ (left + right) / 2 ∧ (left + right) / 2 ≤ right := by
  constructor
  · rw [Int.le_ediv_iff_mul_le (by norm_num)]
    linarith
  · calc (left + right) / 2 ≤ (right + right) / 2 :=
        Int.ediv_le_ediv (by norm_num) (by linarith)
      _ = (right * 2) / 2 := by ring_nf
      _ = right := Int.mul_ediv_cancel _ (by norm_num)

/-- Loop invariant proof for the hit case: while the sought index stays
inside `[left, right]`, the loop returns exactly it. -/
theorem findLoop_hit (segments : List Segment) (time : ℚ) (k : ℕ)
    (hord : SegsOrdered segments) (hk : k < segments.length)
    (hs : (segGet segments k).startTime ≤ time)
    (he : time < (segGet segments k).endTime) :
    ∀ m : ℕ, ∀ left right : ℤ, (right + 1 - left).toNat ≤ m →
      0 ≤ left → left ≤ (k : ℤ) → (k : ℤ) ≤ right →
      right < segments.length → findLoop segments time left right = k := by
  intro m
  induction m with
  | zero =>
    intro left right hm h0 hlk hkr hrlen
    omega
  | succ n ih =>
    intro left right hm h0 hlk hkr hrlen
    have hlr : left ≤ right := le_trans hlk hkr
    obtain ⟨hl, hr⟩ := mid_bounds hlr
    rw [findLoop.eq_def]
    simp only [dif_pos hlr]
    set mid : ℤ := (left + right) / 2 with hmiddef
    have hmidlen : mid.toNat < segments.length := by omega
    by_cases hhit : (segGet segments mid.toNat).startTime ≤ time ∧
        time < (segGet segments mid.toNat).endTime
    · rw [if_pos hhit]
      by_cases hmk : mid.toNat = k
      · omega
      rcases Nat.lt_or_ge mid.toNat k with hlt | hge
      · exact absurd hhit.2 (not_lt_of_le (le_trans (hord.2 k hk mid.toNat hlt) hs))
      · have hklt : k < mid.toNat := by omega
        exact absurd hhit.1 (not_le_of_lt (lt_of_lt_of_le he (hord.2 mid.toNat hmidlen k hklt)))
    · rw [if_neg hhit]
      by_cases hlt : time < (segGet segments mid.toNat).startTime
      · rw [if_pos hlt]
        have hkm : (k : ℤ) ≤ mid - 1 := by
          rcases Nat.lt_or_ge k mid.toNat with h | h
          · omega
          · exfalso
            rcases Nat.eq_or_lt_of_le h with h1 | h1
            · rw [← h1] at hs
              exact absurd hs (not_le_of_lt hlt)
            · exact absurd
                (le_trans (hord.1 mid.toNat hmidlen)
                  (le_trans (hord.2 k hk mid.toNat h1) hs))
                (not_le_of_lt hlt)
        exact ih left (mid - 1) (by omega) h0 hlk hkm (by omega)
      · rw [if_neg hlt]
        have hsm : (segGet segments mid.toNat).startTime ≤ time := le_of_not_lt hlt
        have hem : (segGet segments mid.toNat).endTime ≤ time := by
          by_contra hcon
          exact hhit ⟨hsm, lt_of_not_le hcon⟩
        have hkm : mid + 1 ≤ (k : ℤ) := by
          rcases Nat.lt_or_ge mid.toNat k with h | h
          · omega
          · exfalso
            rcases Nat.eq_or_lt_of_le h with h1 | h1
            · rw [h1] at he
              exact absurd hem (not_le_of_lt he)
            · exact absurd (lt_of_lt_of_le he
                (le_trans (hord.2 mid.toNat hmidlen k h1) hsm)) (lt_irrefl time)
        exact ih (mid + 1) right (by omega) (by omega) hkm hkr hrlen

/-- When the play head is at or past every segment end, every probe sends
the loop right and it falls through to the last index. -/
theorem findLoop_all_le (segments : List Segment) (time : ℚ)
    (hw : NonNegWidths segments)
    (hall : ∀ i, i < segments.length → (segGet segments i).endTime ≤ time) :
    ∀ m : ℕ, ∀ left right : ℤ, (right + 1 - left).toNat ≤ m →
      0 ≤ left → right < segments.length →
      findLoop segments time left right = (segments.length : ℤ) - 1 := by
  intro m
  induction m with
  | zero =>
    intro left right hm h0 hrlen
    rw [findLoop.eq_def]
    rw [dif_neg (by omega : ¬ left ≤ right)]
  | succ n ih =>
    intro left right hm h0 hrlen
    by_cases hlr : left ≤ right
    · obtain ⟨hl, hr⟩ := mid_bounds hlr
      rw [findLoop.eq_def]
      simp only [dif_pos hlr]
      set mid : ℤ := (left + right) / 2 with hmiddef
      have hmidlen : mid.toNat < segments.length := by omega
      have hem : (segGet segments mid.toNat).endTime ≤ time := hall mid.toNat hmidlen
      have hsm : (segGet segments mid.toNat).startTime ≤ time :=
        le_trans (hw mid.toNat hmidlen) hem
      rw [if_neg (by
        intro hcon
        exact absurd hem (not_le_of_lt hcon.2))]
      rw [if_neg (not_lt_of_le hsm)]
      exact ih (mid + 1) right (by omega) (by omega) hrlen
    · rw [findLoop.eq_def]
      rw [dif_neg hlr]

/-- When the play head is strictly before every segment start, every probe
sends the loop left and it falls through to the last index. -/
theorem findLoop_all_lt (segments : List Segment) (time : ℚ)
    (hall : ∀ i, i < segments.length → time < (segGet segments i).startTime) :
    ∀ m : ℕ, ∀ left right : ℤ, (right + 1 - left).toNat ≤ m →
      0 ≤ left → right < segments.length →
      findLoop segments time left right = (segments.length : ℤ) - 1 := by
  intro m
  induction m with
  | zero =>
    intro left right hm h0 hrlen
    rw [findLoop.eq_def]
    rw [dif_neg (by omega : ¬ left ≤ right)]
  | succ n ih =>
    intro left right hm h0 hrlen
    by_cases hlr : left ≤ right
    · obtain ⟨hl, hr⟩ := mid_bounds hlr
      rw [findLoop.eq_def]
      simp only [dif_pos hlr]
      set mid : ℤ := (left + right) / 2 with hmiddef
      have hmidlen : mid.toNat < segments.length := by omega
      have hsm : time < (segGet segments mid.toNat).startTime := hall mid.toNat hmidlen
      rw [if_neg (by
        intro hcon
        exact absurd hcon.1 (not_le_of_lt hsm))]
      rw [if_pos hsm]
      exact ih left (mid - 1) (by omega) h0 (by omega)
    · rw [findLoop.eq_def]
      rw [dif_neg hlr]

/-- The loop result is always within `[0, segments.length)` when entered
with `0 ≤ left` and `right < segments.length` on a non-empty list. -/
theorem findLoop_range (segments : List Segment) (time : ℚ)
    (hne : 1 ≤ segments.length) :
    ∀ m : ℕ, ∀ left right : ℤ, (right + 1 - left).toNat ≤ m →
      0 ≤ left → right < segments.length →
      0 ≤ findLoop segments time left right ∧
        findLoop segments time left right < segments.length := by
  intro m
  induction m with
  | zero =>
    intro left right hm h0 hrlen
    rw [findLoop.eq_def]
    rw [dif_neg (by omega : ¬ left ≤ right)]
    omega
  | succ n ih =>
    intro left right hm h0 hrlen
    by_cases hlr : left ≤ right
    · obtain ⟨hl, hr⟩ := mid_bounds hlr
      rw [findLoop.eq_def]
      simp only [dif_pos hlr]
      set mid : ℤ := (left + right) / 2 with hmiddef
      by_cases hhit : (segGet segments mid.toNat).startTime ≤ time ∧
          time < (segGet segments mid.toNat).endTime
      · rw [if_pos hhit]
        omega
      · rw [if_neg hhit]
        by_cases hlt : time < (segGet segments mid.toNat).startTime
        · rw [if_pos hlt]
          exact ih left (mid - 1) (by omega) h0 (by omega)
        · rw [if_neg hlt]
          exact ih (mid + 1) right (by omega) (by omega) hrlen
    · rw [findLoop.eq_def]
      rw [dif_neg hlr]
      omega

/-- On an ordered list, a play head inside `[start_k, end_k)` is located at
index `k`. -/
theorem findSegmentIndex_hit (segments : List Segment) (time : ℚ) (k : ℕ)
    (hord : SegsOrdered segments) (hk : k < segments.length)
    (hs : (segGet segments k).startTime ≤ time)
    (he : time < (segGet segments k).endTime) :
    findSegmentIndex segments time = k := by
  rw [findSegmentIndex]
  rw [if_neg (by omega : ¬ segments.length = 0)]
  exact findLoop_hit segments time k hord hk hs he
    ((segments.length : ℤ) - 1 + 1 - 0).toNat 0 ((segments.length : ℤ) - 1)
    (le_refl _) (le_refl 0) (by omega) (by omega) (by omega)

/-- On a non-empty ordered list, a play head at or past the final end is
located at the last index. -/
theorem findSegmentIndex_last (segments : List Segment) (time : ℚ)
    (hord : SegsOrdered segments) (hne : segments ≠ [])
    (hge : (segGet segments (segments.length - 1)).endTime ≤ time) :
    findSegmentIndex segments time = (segments.length : ℤ) - 1 := by
  have hlen : 1 ≤ segments.length := by
    cases segments with
    | nil => exact absurd rfl hne
    | cons a l => simp
  have hall : ∀ i, i < segments.length → (segGet segments i).endTime ≤ time := by
    intro i hi
    rcases Nat.eq_or_lt_of_le (by omega : i ≤ segments.length - 1) with h | h
    · rw [h]
      exact hge
    · refine le_trans (hord.2 (segments.length - 1) (by omega) i h) ?_
      exact le_trans (hord.1 (segments.length - 1) (by omega)) hge
  rw [findSegmentIndex]
  rw [if_neg (by omega : ¬ segments.length = 0)]
  exact findLoop_all_le segments time hord.1 hall
    ((segments.length : ℤ) - 1 + 1 - 0).toNat 0 ((segments.length : ℤ) - 1)
    (le_refl _) (le_refl 0) (by omega)

/-- On a non-empty list whose segments all start at nonnegative times, a
negative play head falls through to the last index (the source performs no
left clamp). -/
theorem findSegmentIndex_neg_time (segments : List Segment) (time : ℚ)
    (hne : segments ≠ [])
    (hpos : ∀ i, i < segments.length → 0 ≤ (segGet segments i).startTime)
    (ht : time < 0) :
    findSegmentIndex segments time = (segments.length : ℤ) - 1 := by
  have hlen : 1 ≤ segments.length := by
    cases segments with
    | nil => exact absurd rfl hne
    | cons a l => simp
  have hall : ∀ i, i < segments.length → time < (segGet segments i).startTime := by
    intro i hi
    exact lt_of_lt_of_le ht (hpos i hi)
  rw [findSegmentIndex]
  rw [if_neg (by omega : ¬ segments.length = 0)]
  exact findLoop_all_lt segments time hall
    ((segments.length : ℤ) - 1 + 1 - 0).toNat 0 ((segments.length : ℤ) - 1)
    (le_refl _) (le_refl 0) (by omega)

/-- On a non-empty list the result is a valid index. -/
theorem findSegmentIndex_range (segments : List Segment) (time : ℚ)
    (hne : segments ≠ []) :
    0 ≤ findSegmentIndex segments time ∧
      findSegmentIndex segments time < segments.length := by
  have hlen : 1 ≤ segments.length := by
    cases segments with
    | nil => exact absurd rfl hne
    | cons a l => simp
  rw [findSegmentIndex]
  rw [if_neg (by omega : ¬ segments.length = 0)]
  exact findLoop_range segments time hlen
    ((segments.length : ℤ) - 1 + 1 - 0).toNat 0 ((segments.length : ℤ) - 1)
    (le_refl _) (le_refl 0) (by omega)

/-- A play head in `[0, totalDuration)` over a chained list starting at 0
lies inside some segment (the half-open segments partition the span). -/
theorem exists_containing_segment (segments : List Segment) (time : ℚ)
    (hc : SegsChain segments) (hne : segments ≠ [])
    (h0 : (segGet segments 0).startTime = 0) (hnn : 0 ≤ time)
    (hlt : time < (segGet segments (segments.length - 1)).endTime) :
    ∃ k, k < segments.length ∧ (segGet segments k).startTime ≤ time ∧
      time < (segGet segments k).endTime := by
  have hlen : 1 ≤ segments.length := by
    cases segments with
    | nil => exact absurd rfl hne
    | cons a l => simp
  classical
  have hex : ∃ k, time < (segGet segments k).endTime ∧ k < segments.length :=
    ⟨segments.length - 1, hlt, by omega⟩
  refine ⟨Nat.find hex, (Nat.find_spec hex).2, ?_, (Nat.find_spec hex).1⟩
  rcases Nat.eq_zero_or_pos (Nat.find hex) with hzero | hpos
  · rw [hzero, h0]
    exact hnn
  · have hk1 : Nat.find hex - 1 < Nat.find hex := by omega
    have hlen1 : Nat.find hex - 1 < segments.length := by
      have := (Nat.find_spec hex).2
      omega
    have hprev : (segGet segments (Nat.find hex - 1)).endTime ≤ time := by
      by_contra hcon
      exact Nat.find_min hex hk1 ⟨lt_of_not_le hcon, hlen1⟩
    have hsucc : Nat.find hex - 1 + 1 = Nat.find hex := by omega
    have hchain := hc (Nat.find hex - 1) (by
      have := (Nat.find_spec hex).2
      omega)
    rw [hsucc] at hchain
    rw [hchain]
    exact hprev

/-- For a nonnegative play head over a contiguous timeline starting at 0,
the located segment starts at or before the play head. -/
theorem findSegmentIndex_start_le (segments : List Segment) (time : ℚ)
    (hw : NonNegWidths segments) (hc : SegsChain segments) (hne : segments ≠ [])
    (h0 : (segGet segments 0).startTime = 0) (hnn : 0 ≤ time) :
    (segGet segments (findSegmentIndex segments time).toNat).startTime ≤ time := by
  have hord := segsOrdered_of_chain hw hc
  have hlen : 1 ≤ segments.length := by
    cases segments with
    | nil => exact absurd rfl hne
    | cons a l => simp
  by_cases hend : time < (segGet segments (segments.length - 1)).endTime
  · obtain ⟨k, hk, hs, he⟩ := exists_containing_segment segments time hc hne h0 hnn hend
    rw [findSegmentIndex_hit segments time k hord hk hs he]
    simpa using hs
  · rw [findSegmentIndex_last segments time hord hne (le_of_not_lt hend)]
    have htn : ((segments.length : ℤ) - 1).toNat = segments.length - 1 := by omega
    rw [htn]
    exact le_trans (hw (segments.length - 1) (by omega)) (le_of_not_lt hend)

/-! Structural properties of the built segment list. -/

theorem segGet_cons_zero (s : Segment) (l : List Segment) : segGet (s :: l) 0 = s := rfl

theorem segGet_cons_succ (s : Segment) (l : List Segment) (i : ℕ) :
    segGet (s :: l) (i + 1) = segGet l i := rfl

theorem sumDurations_aux (files : List MediaFile) (a : ℚ) :
    files.foldl (fun sum file => sum + file.duration) a = a + sumDurations files := by
  induction files generalizing a with
  | nil => simp [sumDurations]
  | cons f rest ih =>
    rw [sumDurations, List.foldl_cons, List.foldl_cons, ih, ih (0 + f.duration)]
    ring

theorem sumDurations_cons (f : MediaFile) (rest : List MediaFile) :
    sumDurations (f :: rest) = f.duration + sumDurations rest := by
  rw [sumDurations, List.foldl_cons, sumDurations_aux]
  ring

theorem mediaSegments_length (files : List MediaFile) (t : ℚ) :
    (mediaSegments files t).length = files.length := by
  induction files generalizing t with
  | nil => rfl
  | cons f rest ih =>
    rw [mediaSegments, List.length_cons, List.length_cons, ih]

theorem mediaSegments_shape (files : List MediaFile) (t : ℚ) :
    ∀ i, i < files.length →
      (segGet (mediaSegments files t) i).type = SegType.media ∧
      (segGet (mediaSegments files t) i).item =
        Payload.mediaItem (files.getD i default) ∧
      (segGet (mediaSegments files t) i).endTime =
        (segGet (mediaSegments files t) i).startTime + (files.getD i default).duration := by
  induction files generalizing t with
  | nil =>
    intro i hi
    simp at hi
  | cons f rest ih =>
    intro i hi
    cases i with
    | zero =>
      rw [mediaSegments]
      exact ⟨rfl, rfl, rfl⟩
    | succ n =>
      rw [mediaSegments, segGet_cons_succ]
      have hn : n < rest.length := by
        rw [List.length_cons] at hi
        omega
      exact ih (t + f.duration) n hn

theorem mediaSegments_start (files : List MediaFile) (t : ℚ) (hne : files ≠ []) :
    (segGet (mediaSegments files t) 0).startTime = t := by
  cases files with
  | nil => exact absurd rfl hne
  | cons f rest => rfl

theorem mediaSegments_chain (files : List MediaFile) (t : ℚ) :
    SegsChain (mediaSegments files t) := by
  induction files generalizing t with
  | nil =>
    intro i hi
    simp [mediaSegments] at hi
  | cons f rest ih =>
    intro i hi
    rw [mediaSegments_length, List.length_cons] at hi
    cases i with
    | zero =>
      have hrest : rest ≠ [] := by
        intro hcon
        rw [hcon] at hi
        simp at hi
      rw [mediaSegments, segGet_cons_succ, segGet_cons_zero,
        mediaSegments_start rest (t + f.duration) hrest]
    | succ n =>
      rw [mediaSegments, segGet_cons_succ, segGet_cons_succ]
      have := ih (t + f.duration) n (by rw [mediaSegments_length]; omega)
      exact this

theorem mediaSegments_last_end (files : List MediaFile) (t : ℚ) (hne : files ≠ []) :
    (segGet (mediaSegments files t) ((mediaSegments files t).length - 1)).endTime =
      t + sumDurations files := by
  induction files generalizing t with
  | nil => exact absurd rfl hne
  | cons f rest ih =>
    cases hrest : rest with
    | nil =>
      subst hrest
      have hsum : sumDurations [f] = f.duration := by
        rw [sumDurations, List.foldl_cons, List.foldl_nil]
        ring
      rw [mediaSegments, mediaSegments]
      simp [segGet_cons_zero, hsum]
    | cons g rest2 =>
      rw [← hrest]
      have hrne : rest ≠ [] := by
        rw [hrest]
        exact List.cons_ne_nil g rest2
      have hlen : (mediaSegments (f :: rest) t).length - 1 =
          ((mediaSegments rest (t + f.duration)).length - 1) + 1 := by
        rw [mediaSegments_length, mediaSegments_length, List.length_cons]
        have : rest.length ≠ 0 := by
          intro hcon
          exact hrne (List.length_eq_zero.mp hcon)
        omega
      rw [hlen, mediaSegments, segGet_cons_succ, ih (t + f.duration) hrne,
        sumDurations_cons]
      ring

theorem string_length_pos_iff (t : String) : 0 < t.length ↔ t ≠ "" := by
  obtain ⟨l⟩ := t
  cases l with
  | nil =>
    constructor
    · intro h
      exact absurd h (by decide)
    · intro h
      exact absurd rfl h
  | cons c cs =>
    constructor
    · intro _ hcon
      have hd : (String.mk (c :: cs)).data = ([] : List Char) := by
        rw [hcon]
      simp at hd
    · intro _
      have : (String.mk (c :: cs)).length = cs.length + 1 := by
        simp [String.length]
      omega

/-- The sample timeline without cover, in normalized literal form. -/
theorem buildSegments_sample_blank :
    buildSegments sampleFiles blankCover =
      [⟨SegType.media, 0, 5, Payload.mediaItem ⟨"a", MediaType.video, 5⟩⟩,
       ⟨SegType.media, 5, 8, Payload.mediaItem ⟨"b", MediaType.image, 3⟩⟩,
       ⟨SegType.media, 8, 12, Payload.mediaItem ⟨"c", MediaType.video, 4⟩⟩] := by
  rw [buildSegments, if_neg (by decide)]
  norm_num [mediaSegments, sampleFiles]

/-- The sample timeline with the titled cover, in normalized literal form. -/
theorem buildSegments_sample_titled :
    buildSegments sampleFiles titledCover =
      [⟨SegType.cover, 0, 4, Payload.coverItem titledCover⟩,
       ⟨SegType.media, 4, 9, Payload.mediaItem ⟨"a", MediaType.video, 5⟩⟩,
       ⟨SegType.media, 9, 12, Payload.mediaItem ⟨"b", MediaType.image, 3⟩⟩,
       ⟨SegType.media, 12, 16, Payload.mediaItem ⟨"c", MediaType.video, 4⟩⟩] := by
  rw [buildSegments, if_pos (by decide)]
  norm_num [mediaSegments, sampleFiles, titledCover]

/-- Total duration of the sample timeline without cover. -/
theorem totalDuration_sample_blank : totalDuration sampleFiles blankCover = 12 := by
  rw [totalDuration, if_neg (by decide)]
  norm_num [sumDurations, sampleFiles]

/-- Total duration of the sample timeline with the titled cover. -/
theorem totalDuration_sample_titled : totalDuration sampleFiles titledCover = 16 := by
  rw [totalDuration, if_pos (by decide)]
  norm_num [sumDurations, sampleFiles, titledCover]

/-- Every branch of the scrub handler publishes exactly the scrub value and
pauses; the branches differ only in the backend registry. -/
theorem handleTimeChange_previewTime (segments : List Segment) (st : PreviewState)
    (newTime : ℚ) :
    (handleTimeChange segments st newTime).previewTime = newTime ∧
    (handleTimeChange segments st newTime).isPlaying = false := by
  constructor
  · rw [handleTimeChange]
    dsimp only
    repeat' split
    all_goals rfl
  · rw [handleTimeChange]
    dsimp only
    repeat' split
    all_goals rfl

/-- Looking up an id after writing it yields the written backend, provided
the id was registered. -/
theorem lookupBackend_write (id : String) (b v : Backend)
    (backends : List (String × Backend))
    (h : lookupBackend id backends = some v) :
    lookupBackend id (writeBackend id b backends) = some b := by
  induction backends with
  | nil => cases h
  | cons p rest ih =>
    by_cases hp : p.1 = id
    · rw [writeBackend, List.map_cons, if_pos hp, lookupBackend, if_pos hp]
    · rw [lookupBackend, if_neg hp] at h
      rw [writeBackend, List.map_cons, if_neg hp, lookupBackend, if_neg hp]
      exact ih h

theorem segGet_eq_getElem (l : List Segment) (i : ℕ) (h : i < l.length) :
    segGet l i = l[i] := by
  rw [segGet, List.getD_eq_getElem?_getD, List.getElem?_eq_getElem h]
  rfl

/-! Claim theorems. -/

/-- C1: on an ordered timeline, a time inside `[start_k, end_k)` is located
at index `k`; a time at or past the final end (totalDuration) is located at
the last index; the empty list yields `-1`. -/
theorem claim1_locate_contract (segments : List Segment) (time : ℚ)
    (hord : SegsOrdered segments) :
    (∀ k, k < segments.length → (segGet segments k).startTime ≤ time →
        time < (segGet segments k).endTime →
        findSegmentIndex segments time = k) ∧
    (segments ≠ [] → (segGet segments (segments.length - 1)).endTime ≤ time →
        findSegmentIndex segments time = (segments.length : ℤ) - 1) ∧
    (segments = [] → findSegmentIndex segments time = -1) := by
  refine ⟨fun k hk hs he => findSegmentIndex_hit segments time k hord hk hs he,
    fun hne hge => findSegmentIndex_last segments time hord hne hge,
    fun hemp => ?_⟩
  subst hemp
  rfl

/-- Witness for C1 on the §8 vector `[5, 3, 4]` with no cover: the times 6
and 12 are located at indices 1 and 2 (12 equals the final end). -/
theorem claim1_locate_contract_witness :
    SegsOrdered (buildSegments sampleFiles blankCover) ∧
    findSegmentIndex (buildSegments sampleFiles blankCover) 6 = 1 ∧
    findSegmentIndex (buildSegments sampleFiles blankCover) 12 = 2 := by
  have hord : SegsOrdered (buildSegments sampleFiles blankCover) := by
    rw [SegsOrdered, NonNegWidths, buildSegments_sample_blank]
    decide
  refine ⟨hord, ?_, ?_⟩
  · exact (claim1_locate_contract (buildSegments sampleFiles blankCover) 6 hord).1 1
      (by rw [buildSegments_sample_blank]; decide)
      (by rw [buildSegments_sample_blank]; decide)
      (by rw [buildSegments_sample_blank]; decide)
  · have h := (claim1_locate_contract (buildSegments sampleFiles blankCover) 12 hord).2.1
      (by rw [buildSegments_sample_blank]; decide)
      (by rw [buildSegments_sample_blank]; decide)
    rw [h, buildSegments_sample_blank]
    decide

/-- C2 fails on the code: on the `[5, 3, 4]` timeline with no cover, a
negative time falls through the binary search to the LAST index, not 0 —
there is no clamp-left in `findSegmentIndex`. -/
theorem claim2_counterexample :
    findSegmentIndex (buildSegments sampleFiles blankCover) (-1) = 2 ∧ (2 : ℤ) ≠ 0 := by
  constructor
  · have h := findSegmentIndex_neg_time (buildSegments sampleFiles blankCover) (-1)
      (by rw [buildSegments_sample_blank]; decide)
      (by rw [buildSegments_sample_blank]; decide)
      (by norm_num)
    rw [h, buildSegments_sample_blank]
    decide
  · decide

/-- C2 amended: for every non-empty segment list whose segments start at
nonnegative times, a negative time makes every probe move `right` down, so
the loop falls through and returns the LAST index `segments.length - 1`
(not 0); in particular `locate(-1) = 2` on durations `[5, 3, 4]`. -/
theorem claim2_amended_neg_time (segments : List Segment) (time : ℚ)
    (hne : segments ≠ [])
    (hpos : ∀ i, i < segments.length → 0 ≤ (segGet segments i).startTime)
    (ht : time < 0) :
    findSegmentIndex segments time = (segments.length : ℤ) - 1 :=
  findSegmentIndex_neg_time segments time hne hpos ht

/-- Witness for the amended C2 at the concrete `[5, 3, 4]` timeline and
time `-1`. -/
theorem claim2_amended_neg_time_witness :
    buildSegments sampleFiles blankCover ≠ [] ∧
    findSegmentIndex (buildSegments sampleFiles blankCover) (-1) =
      ((buildSegments sampleFiles blankCover).length : ℤ) - 1 :=
  ⟨by rw [buildSegments_sample_blank]; decide,
    claim2_amended_neg_time (buildSegments sampleFiles blankCover) (-1)
      (by rw [buildSegments_sample_blank]; decide)
      (by rw [buildSegments_sample_blank]; decide)
      (by norm_num)⟩

/-- C3: the built segment list prepends exactly one cover segment
`[0, cover.duration)` iff the trimmed cover text is non-empty, followed by
one media segment per item in their given order, each spanning its item
duration; adjacent segments are contiguous, the first starts at 0, and the
last ends at `totalDuration` (cover duration, when shown, plus the sum of
the media durations). -/
theorem claim3_build_contract (files : List MediaFile) (cover : CoverConfig) :
    (0 < (jsTrim cover.text).length →
      (buildSegments files cover).length = files.length + 1 ∧
      segGet (buildSegments files cover) 0 =
        ⟨SegType.cover, 0, cover.duration, Payload.coverItem cover⟩ ∧
      ∀ i, i < files.length →
        (segGet (buildSegments files cover) (i + 1)).type = SegType.media ∧
        (segGet (buildSegments files cover) (i + 1)).item =
          Payload.mediaItem (files.getD i default) ∧
        (segGet (buildSegments files cover) (i + 1)).endTime =
          (segGet (buildSegments files cover) (i + 1)).startTime +
            (files.getD i default).duration) ∧
    ((jsTrim cover.text).length = 0 →
      (buildSegments files cover).length = files.length ∧
      ∀ i, i < files.length →
        (segGet (buildSegments files cover) i).type = SegType.media ∧
        (segGet (buildSegments files cover) i).item =
          Payload.mediaItem (files.getD i default) ∧
        (segGet (buildSegments files cover) i).endTime =
          (segGet (buildSegments files cover) i).startTime +
            (files.getD i default).duration) ∧
    SegsChain (buildSegments files cover) ∧
    (buildSegments files cover ≠ [] →
      (segGet (buildSegments files cover) 0).startTime = 0) ∧
    (buildSegments files cover ≠ [] →
      (segGet (buildSegments files cover)
          ((buildSegments files cover).length - 1)).endTime =
        totalDuration files cover) := by
  by_cases hcov : 0 < (jsTrim cover.text).length
  · have hbs : buildSegments files cover =
        (⟨SegType.cover, 0, cover.duration, Payload.coverItem cover⟩ : Segment) ::
          mediaSegments files cover.duration := by
      rw [buildSegments, if_pos hcov]
    have htotal : totalDuration files cover = cover.duration + sumDurations files := by
      rw [totalDuration, if_pos ((string_length_pos_iff (jsTrim cover.text)).mp hcov)]
    refine ⟨fun _ => ?_, fun hcon => absurd hcov (by omega), ?_, fun _ => ?_, fun _ => ?_⟩
    · rw [hbs]
      refine ⟨?_, rfl, ?_⟩
      · rw [List.length_cons, mediaSegments_length]
      · intro i hi
        rw [segGet_cons_succ]
        exact mediaSegments_shape files cover.duration i hi
    · rw [hbs]
      intro i hi
      rw [List.length_cons, mediaSegments_length] at hi
      cases i with
      | zero =>
        have hfne : files ≠ [] := by
          intro hcon
          rw [hcon] at hi
          simp at hi
        rw [segGet_cons_succ, segGet_cons_zero,
          mediaSegments_start files cover.duration hfne]
      | succ n =>
        rw [segGet_cons_succ, segGet_cons_succ]
        exact mediaSegments_chain files cover.duration n (by rw [mediaSegments_length]; omega)
    · rw [hbs]
      rfl
    · rw [hbs, htotal]
      cases hf : files with
      | nil =>
        rw [mediaSegments]
        show cover.duration = cover.duration + sumDurations ([] : List MediaFile)
        rw [show sumDurations ([] : List MediaFile) = 0 from rfl]
        ring
      | cons g rest =>
        rw [← hf]
        have hfne : files ≠ [] := by
          rw [hf]
          exact List.cons_ne_nil g rest
        have hlen2 :
            ((⟨SegType.cover, 0, cover.duration, Payload.coverItem cover⟩ : Segment) ::
              mediaSegments files cover.duration).length - 1 =
            ((mediaSegments files cover.duration).length - 1) + 1 := by
          rw [List.length_cons, mediaSegments_length]
          have : files.length ≠ 0 := fun hc => hfne (List.length_eq_zero.mp hc)
          omega
        rw [hlen2, segGet_cons_succ,
          mediaSegments_last_end files cover.duration hfne]
  · have hbs : buildSegments files cover = mediaSegments files 0 := by
      rw [buildSegments, if_neg hcov]
    have htotal : totalDuration files cover = 0 + sumDurations files := by
      rw [totalDuration,
        if_neg (fun hne2 => hcov ((string_length_pos_iff (jsTrim cover.text)).mpr hne2))]
    have hfne_of : buildSegments files cover ≠ [] → files ≠ [] := by
      intro hne hcon
      rw [hbs, hcon, mediaSegments] at hne
      exact hne rfl
    refine ⟨fun h => absurd h hcov, fun _ => ?_, ?_, fun hne => ?_, fun hne => ?_⟩
    · rw [hbs]
      exact ⟨mediaSegments_length files 0, fun i hi => mediaSegments_shape files 0 i hi⟩
    · rw [hbs]
      exact mediaSegments_chain files 0
    · rw [hbs]
      exact mediaSegments_start files 0 (hfne_of hne)
    · rw [hbs, htotal]
      exact mediaSegments_last_end files 0 (hfne_of hne)

/-- Witness for C3 on the titled sample: four segments, the cover first at
`[0, 4)`, contiguous, ending at the total duration 16. -/
theorem claim3_build_contract_witness :
    (buildSegments sampleFiles titledCover).length = sampleFiles.length + 1 ∧
    segGet (buildSegments sampleFiles titledCover) 0 =
      ⟨SegType.cover, 0, titledCover.duration, Payload.coverItem titledCover⟩ ∧
    SegsChain (buildSegments sampleFiles titledCover) ∧
    (segGet (buildSegments sampleFiles titledCover)
        ((buildSegments sampleFiles titledCover).length - 1)).endTime =
      totalDuration sampleFiles titledCover := by
  have h := claim3_build_contract sampleFiles titledCover
  have hcov : 0 < (jsTrim titledCover.text).length := by decide
  exact ⟨(h.1 hcov).1, (h.1 hcov).2.1, h.2.2.1,
    h.2.2.2.2 (by rw [buildSegments_sample_titled]; decide)⟩

/-- C4: a scrub publishes exactly `newTime` and pauses; when the located
segment is a video media segment with a registered backend, that backend is
seeked to the local position `newTime - segment.startTime`, with no drift
tolerance and no throttle involved. -/
theorem claim4_scrub_contract (segments : List Segment) (st : PreviewState)
    (newTime : ℚ) (hw : NonNegWidths segments) (hc : SegsChain segments)
    (h0 : segments ≠ [] → (segGet segments 0).startTime = 0) (hnn : 0 ≤ newTime) :
    (handleTimeChange segments st newTime).previewTime = newTime ∧
    (handleTimeChange segments st newTime).isPlaying = false ∧
    ∀ seg f video,
      currentSegment segments newTime = some seg →
      segVideoFile seg = some f →
      lookupBackend f.id st.backends = some video →
      lookupBackend f.id (handleTimeChange segments st newTime).backends =
        some { video with currentTime := newTime - seg.startTime } := by
  refine ⟨(handleTimeChange_previewTime segments st newTime).1,
    (handleTimeChange_previewTime segments st newTime).2, ?_⟩
  intro seg f video hcs hsv hlb
  rw [currentSegment] at hcs
  by_cases hidx : 0 ≤ findSegmentIndex segments newTime
  · rw [if_pos hidx] at hcs
    have hseg : seg = segGet segments (findSegmentIndex segments newTime).toNat :=
      (Option.some.inj hcs).symm
    have hne : segments ≠ [] := by
      intro hcon
      rw [hcon] at hidx
      exact absurd hidx (by norm_num [findSegmentIndex])
    have hstart : seg.startTime ≤ newTime := by
      rw [hseg]
      exact findSegmentIndex_start_le segments newTime hw hc hne (h0 hne) hnn
    rw [handleTimeChange]
    dsimp only
    rw [if_pos hidx, ← hseg, hsv]
    dsimp only
    rw [hlb]
    dsimp only
    rw [if_pos (by linarith : (0:ℚ) ≤ newTime - seg.startTime)]
    exact lookupBackend_write f.id _ video st.backends hlb
  · rw [if_neg hidx] at hcs
    cases hcs

/-- Witness for C4: scrubbing to 9 on the `[5, 3, 4]` timeline with video
"c" registered publishes 9, pauses, and seeks backend "c" to local time 1. -/
theorem claim4_scrub_contract_witness :
    (handleTimeChange (buildSegments sampleFiles blankCover)
        ⟨0, true, [("c", ⟨5, false, none⟩)], 0⟩ 9).previewTime = 9 ∧
    (handleTimeChange (buildSegments sampleFiles blankCover)
        ⟨0, true, [("c", ⟨5, false, none⟩)], 0⟩ 9).isPlaying = false ∧
    lookupBackend "c" (handleTimeChange (buildSegments sampleFiles blankCover)
        ⟨0, true, [("c", ⟨5, false, none⟩)], 0⟩ 9).backends =
      some ⟨1, false, none⟩ := by
  have h := claim4_scrub_contract (buildSegments sampleFiles blankCover)
      ⟨0, true, [("c", ⟨5, false, none⟩)], 0⟩ 9
      (by rw [NonNegWidths, buildSegments_sample_blank]; decide)
      (by
        rw [SegsChain, buildSegments_sample_blank]
        intro i hi
        have h2 : i < 2 := by
          simp only [List.length_cons, List.length_nil] at hi
          omega
        interval_cases i <;> decide)
      (fun _ => by rw [buildSegments_sample_blank]; decide)
      (by norm_num)
  have hord : SegsOrdered (buildSegments sampleFiles blankCover) := by
    rw [SegsOrdered, NonNegWidths, buildSegments_sample_blank]
    decide
  have hidx : findSegmentIndex (buildSegments sampleFiles blankCover) 9 = 2 :=
    findSegmentIndex_hit (buildSegments sampleFiles blankCover) 9 2 hord
      (by rw [buildSegments_sample_blank]; decide)
      (by rw [buildSegments_sample_blank]; decide)
      (by rw [buildSegments_sample_blank]; decide)
  have hcs : currentSegment (buildSegments sampleFiles blankCover) 9 =
      some ⟨SegType.media, 8, 12, Payload.mediaItem ⟨"c", MediaType.video, 4⟩⟩ := by
    rw [currentSegment]
    rw [hidx, if_pos (by norm_num : (0:ℤ) ≤ 2), buildSegments_sample_blank]
    rfl
  have hres := h.2.2 ⟨SegType.media, 8, 12, Payload.mediaItem ⟨"c", MediaType.video, 4⟩⟩
    ⟨"c", MediaType.video, 4⟩ ⟨5, false, none⟩ hcs (by decide) (by decide)
  refine ⟨h.1, h.2.1, ?_⟩
  rw [hres]
  norm_num

/-- C9 fails on the code as stated: the scrub handler applies no clamp, so
a scrub request of 13 on the 12-second `[5, 3, 4]` timeline publishes a
previewTime of 13, outside `[0, totalDuration]`. -/
theorem claim9_counterexample :
    totalDuration sampleFiles blankCover = 12 ∧
    (handleTimeChange (buildSegments sampleFiles blankCover)
        ⟨0, true, [], 0⟩ 13).previewTime = 13 ∧
    ¬ ((13 : ℚ) ≤ 12) :=
  ⟨totalDuration_sample_blank,
    (handleTimeChange_previewTime (buildSegments sampleFiles blankCover)
      ⟨0, true, [], 0⟩ 13).1,
    by norm_num⟩

/-- C9 amended: keyboard seeks are clamped into `[0, totalDuration]` and
never rejected; the scrub handler publishes the raw scrub value with no
clamp of its own (the range control constrains scrubs to `[0,
totalDuration]`, so only keyboard seeks can overshoot, and those clamp). -/
theorem claim9_amended_seek_clamping (segments : List Segment) (totalDur : ℚ)
    (st : PreviewState) (newTime : ℚ)
    (h0 : 0 ≤ st.previewTime) (h1 : st.previewTime ≤ totalDur) (hd : 0 ≤ totalDur) :
    (0 ≤ (arrowLeftSeek st).previewTime ∧
      (arrowLeftSeek st).previewTime ≤ totalDur) ∧
    (0 ≤ (arrowRightSeek totalDur st).previewTime ∧
      (arrowRightSeek totalDur st).previewTime ≤ totalDur) ∧
    (handleTimeChange segments st newTime).previewTime = newTime := by
  refine ⟨⟨le_max_left 0 _, ?_⟩, ⟨?_, min_le_left _ _⟩,
    (handleTimeChange_previewTime segments st newTime).1⟩
  · show max 0 (st.previewTime - 5) ≤ totalDur
    apply max_le hd
    linarith
  · show 0 ≤ min totalDur (st.previewTime + 5)
    apply le_min hd
    linarith

/-- Witness for the amended C9 with the play head at 3 of 12: ArrowLeft
would target -2 and clamps into range, ArrowRight stays in range, and a
scrub to 20 publishes exactly 20. -/
theorem claim9_amended_seek_clamping_witness :
    (0 ≤ (arrowLeftSeek ⟨3, false, [], 0⟩).previewTime ∧
      (arrowLeftSeek ⟨3, false, [], 0⟩).previewTime ≤ 12) ∧
    (0 ≤ (arrowRightSeek 12 ⟨3, false, [], 0⟩).previewTime ∧
      (arrowRightSeek 12 ⟨3, false, [], 0⟩).previewTime ≤ 12) ∧
    (handleTimeChange [] ⟨3, false, [], 0⟩ 20).previewTime = 20 :=
  claim9_amended_seek_clamping [] 12 ⟨3, false, [], 0⟩ 20
    (by norm_num) (by norm_num) (by norm_num)

/-- C10: toggling play on from Paused on a non-empty timeline rewinds the
play head to 0 first iff it sits within 0.1 s of the end; otherwise the
play head is untouched; in both cases playback starts. -/
theorem claim10_toggle_restart (segments : List Segment) (totalDur : ℚ)
    (st : PreviewState) (hne : segments ≠ []) (hp : st.isPlaying = false) :
    (totalDur - 1/10 ≤ st.previewTime →
      (togglePlay segments totalDur st).previewTime = 0 ∧
      (togglePlay segments totalDur st).isPlaying = true) ∧
    (st.previewTime < totalDur - 1/10 →
      (togglePlay segments totalDur st).previewTime = st.previewTime ∧
      (togglePlay segments totalDur st).isPlaying = true) := by
  have hlen : ¬ segments.length = 0 := by
    cases segments with
    | nil => exact absurd rfl hne
    | cons a l => simp
  have hpl : ¬ st.isPlaying = true := by
    rw [hp]
    simp
  constructor
  · intro hge
    rw [togglePlay, if_neg hlen, if_neg hpl]
    dsimp only
    rw [if_pos hge]
    exact ⟨rfl, rfl⟩
  · intro hlt
    rw [togglePlay, if_neg hlen, if_neg hpl]
    dsimp only
    rw [if_neg (not_le_of_lt hlt)]
    exact ⟨rfl, rfl⟩

/-- Witness for C10: on the 12-second sample timeline, toggling play at the
very end (previewTime 12) rewinds to 0 and starts playing. -/
theorem claim10_toggle_restart_witness :
    (togglePlay (buildSegments sampleFiles blankCover) 12
        ⟨12, false, [], 0⟩).previewTime = 0 ∧
    (togglePlay (buildSegments sampleFiles blankCover) 12
        ⟨12, false, [], 0⟩).isPlaying = true :=
  (claim10_toggle_restart (buildSegments sampleFiles blankCover) 12 ⟨12, false, [], 0⟩
    (by rw [buildSegments_sample_blank]; decide) rfl).1 (by norm_num)

/-- C5: on a backend ended notification, or on the synthetic cover clock
reaching (or passing) the captured segment end, the controller advances the
play head to the next segment start; when the completed segment is the
last, it pauses and rewinds the play head to 0. -/
theorem claim5_segment_advance (segments : List Segment) (st : PreviewState)
    (hne : segments ≠ []) :
    ((findSegmentIndex segments st.previewTime).toNat + 1 < segments.length →
      (handleVideoEnded segments st).previewTime =
        (segGet segments
          ((findSegmentIndex segments st.previewTime).toNat + 1)).startTime ∧
      (handleVideoEnded segments st).isPlaying = st.isPlaying) ∧
    ((findSegmentIndex segments st.previewTime).toNat + 1 = segments.length →
      (handleVideoEnded segments st).previewTime = 0 ∧
      (handleVideoEnded segments st).isPlaying = false) ∧
    (∀ startPT : ℚ, ∀ currentIndex : ℕ, ∀ endT elapsed : ℚ,
      endT ≤ startPT + elapsed →
      (currentIndex + 1 < segments.length →
        (coverTick segments startPT currentIndex endT elapsed st).previewTime =
          (segGet segments (currentIndex + 1)).startTime ∧
        (coverTick segments startPT currentIndex endT elapsed st).isPlaying =
          st.isPlaying) ∧
      (segments.length ≤ currentIndex + 1 →
        (coverTick segments startPT currentIndex endT elapsed st).previewTime = 0 ∧
        (coverTick segments startPT currentIndex endT elapsed st).isPlaying = false)) := by
  obtain ⟨hge0, hlt⟩ := findSegmentIndex_range segments st.previewTime hne
  have hcs : currentSegment segments st.previewTime =
      some (segGet segments (findSegmentIndex segments st.previewTime).toNat) := by
    rw [currentSegment]
    rw [if_pos hge0]
  refine ⟨?_, ?_, ?_⟩
  · intro hnext
    rw [handleVideoEnded, hcs]
    dsimp only
    rw [List.getElem?_eq_getElem hnext]
    dsimp only
    refine ⟨?_, rfl⟩
    rw [segGet_eq_getElem segments _ hnext]
  · intro hlast
    rw [handleVideoEnded, hcs]
    dsimp only
    rw [List.getElem?_len_le (by omega)]
    exact ⟨rfl, rfl⟩
  · intro startPT currentIndex endT elapsed hend
    constructor
    · intro hnext
      rw [coverTick]
      rw [if_pos hend, List.getElem?_eq_getElem hnext]
      refine ⟨?_, rfl⟩
      show (segments[currentIndex + 1]).startTime =
        (segGet segments (currentIndex + 1)).startTime
      rw [segGet_eq_getElem segments _ hnext]
    · intro hlast
      rw [coverTick]
      rw [if_pos hend, List.getElem?_len_le hlast]
      exact ⟨rfl, rfl⟩

/-- Witness for C5 on the `[5, 3, 4]` timeline: an ended at play head 6
(segment 1) advances to 8 without pausing; a cover tick past the end of the
final segment (index 2, end 12) rewinds to 0 and pauses. -/
theorem claim5_segment_advance_witness :
    (handleVideoEnded (buildSegments sampleFiles blankCover)
        ⟨6, true, [], 0⟩).previewTime = 8 ∧
    (handleVideoEnded (buildSegments sampleFiles blankCover)
        ⟨6, true, [], 0⟩).isPlaying = true ∧
    (coverTick (buildSegments sampleFiles blankCover) 11 2 12 2
        ⟨11, true, [], 0⟩).previewTime = 0 ∧
    (coverTick (buildSegments sampleFiles blankCover) 11 2 12 2
        ⟨11, true, [], 0⟩).isPlaying = false := by
  have hne : buildSegments sampleFiles blankCover ≠ [] := by
    rw [buildSegments_sample_blank]
    decide
  have hord : SegsOrdered (buildSegments sampleFiles blankCover) := by
    rw [SegsOrdered, NonNegWidths, buildSegments_sample_blank]
    decide
  have hidx : findSegmentIndex (buildSegments sampleFiles blankCover) 6 = 1 :=
    findSegmentIndex_hit (buildSegments sampleFiles blankCover) 6 1 hord
      (by rw [buildSegments_sample_blank]; decide)
      (by rw [buildSegments_sample_blank]; decide)
      (by rw [buildSegments_sample_blank]; decide)
  have ha := (claim5_segment_advance (buildSegments sampleFiles blankCover)
      ⟨6, true, [], 0⟩ hne).1
  have hb := (claim5_segment_advance (buildSegments sampleFiles blankCover)
      ⟨11, true, [], 0⟩ hne).2.2 11 2 12 2 (by norm_num)
  dsimp only at ha
  rw [hidx] at ha
  have ha2 := ha (by rw [buildSegments_sample_blank]; decide)
  have hb2 := hb.2 (by rw [buildSegments_sample_blank]; decide)
  refine ⟨?_, ?_, hb2.1, hb2.2⟩
  · rw [ha2.1, buildSegments_sample_blank]
    decide
  · exact ha2.2

/-- C6 fails on the code as stated: when the current segment is a video
media segment whose own backend is NOT registered, the sync effect returns
early and pauses nothing, so an unrelated registered backend keeps playing.
Here segment item "x" is unregistered while backend "y" is playing. -/
theorem claim6_counterexample :
    ¬ (∀ p ∈ (syncEffect
          [⟨SegType.media, 0, 5, Payload.mediaItem ⟨"x", MediaType.video, 5⟩⟩]
          ⟨0, true, [("y", ⟨0, false, none⟩)], 0⟩).backends,
        p.1 ≠ "x" → p.2.paused = true) := by
  intro hall
  have hidx : findSegmentIndex
      [⟨SegType.media, 0, 5, Payload.mediaItem ⟨"x", MediaType.video, 5⟩⟩] 0 = 0 :=
    findSegmentIndex_hit _ 0 0
      (by rw [SegsOrdered, NonNegWidths]; decide) (by decide) (by decide) (by decide)
  have hcs : currentSegment
      [⟨SegType.media, 0, 5, Payload.mediaItem ⟨"x", MediaType.video, 5⟩⟩] 0 =
      some ⟨SegType.media, 0, 5, Payload.mediaItem ⟨"x", MediaType.video, 5⟩⟩ := by
    rw [currentSegment]
    rw [hidx, if_pos (by norm_num : (0:ℤ) ≤ 0)]
    rfl
  have hsync : syncEffect
      [⟨SegType.media, 0, 5, Payload.mediaItem ⟨"x", MediaType.video, 5⟩⟩]
      ⟨0, true, [("y", ⟨0, false, none⟩)], 0⟩ =
      ⟨0, true, [("y", ⟨0, false, none⟩)], 0⟩ := by
    rw [syncEffect, hcs]
    dsimp only
    rw [show segVideoFile
        ⟨SegType.media, 0, 5, Payload.mediaItem ⟨"x", MediaType.video, 5⟩⟩ =
        some ⟨"x", MediaType.video, 5⟩ from by decide]
    dsimp only
    rw [show lookupBackend "x" [("y", (⟨0, false, none⟩ : Backend))] = none from by decide]
  rw [hsync] at hall
  have := hall ("y", ⟨0, false, none⟩) (by decide) (by decide)
  cases this

/-- C6 amended: after a sync run, if the current segment is not a video
media segment every registered backend is paused; if it is and the owning
backend IS registered, every registered backend other than the owner is
paused, so at most the owner plays.  (When the owner is unregistered the
effect returns early and pauses nothing, which is what the counterexample
exhibits.) -/
theorem claim6_amended_single_active (segments : List Segment) (st : PreviewState) :
    (currentSegment segments st.previewTime = none →
      ∀ p ∈ (syncEffect segments st).backends, p.2.paused = true) ∧
    (∀ seg, currentSegment segments st.previewTime = some seg →
      segVideoFile seg = none →
      ∀ p ∈ (syncEffect segments st).backends, p.2.paused = true) ∧
    (∀ seg f video, currentSegment segments st.previewTime = some seg →
      segVideoFile seg = some f →
      lookupBackend f.id st.backends = some video →
      ∀ p ∈ (syncEffect segments st).backends, p.1 ≠ f.id → p.2.paused = true) := by
  refine ⟨?_, ?_, ?_⟩
  · intro hcs p hp
    rw [syncEffect, hcs] at hp
    have hp2 : p ∈ pauseAll st.backends := hp
    rw [pauseAll, List.mem_map] at hp2
    obtain ⟨q, hq, heq⟩ := hp2
    rw [← heq]
  · intro seg hcs hsv p hp
    rw [syncEffect, hcs] at hp
    dsimp only at hp
    rw [hsv] at hp
    have hp2 : p ∈ pauseAll st.backends := hp
    rw [pauseAll, List.mem_map] at hp2
    obtain ⟨q, hq, heq⟩ := hp2
    rw [← heq]
  · intro seg f video hcs hsv hlb p hp hne
    rw [syncEffect, hcs] at hp
    dsimp only at hp
    rw [hsv] at hp
    dsimp only at hp
    rw [hlb] at hp
    dsimp only at hp
    rw [List.mem_map] at hp
    obtain ⟨q, hq, heq⟩ := hp
    by_cases hq1 : q.1 = f.id
    · rw [if_pos hq1] at heq
      rw [← heq] at hne
      exact absurd hq1 hne
    · rw [if_neg hq1] at heq
      rw [← heq]

/-- Witness for the amended C6 on a one-segment video timeline whose owner
"x" IS registered: after sync the other registered backend "y" is paused. -/
theorem claim6_amended_single_active_witness :
    ∀ p ∈ (syncEffect
        [⟨SegType.media, 0, 5, Payload.mediaItem ⟨"x", MediaType.video, 5⟩⟩]
        ⟨0, true, [("x", ⟨0, false, none⟩), ("y", ⟨0, false, none⟩)], 0⟩).backends,
      p.1 ≠ "x" → p.2.paused = true := by
  have hidx : findSegmentIndex
      [⟨SegType.media, 0, 5, Payload.mediaItem ⟨"x", MediaType.video, 5⟩⟩] 0 = 0 :=
    findSegmentIndex_hit _ 0 0
      (by rw [SegsOrdered, NonNegWidths]; decide) (by decide) (by decide) (by decide)
  have hcs : currentSegment
      [⟨SegType.media, 0, 5, Payload.mediaItem ⟨"x", MediaType.video, 5⟩⟩] 0 =
      some ⟨SegType.media, 0, 5, Payload.mediaItem ⟨"x", MediaType.video, 5⟩⟩ := by
    rw [currentSegment]
    rw [hidx, if_pos (by norm_num : (0:ℤ) ≤ 0)]
    rfl
  exact (claim6_amended_single_active
      [⟨SegType.media, 0, 5, Payload.mediaItem ⟨"x", MediaType.video, 5⟩⟩]
      ⟨0, true, [("x", ⟨0, false, none⟩), ("y", ⟨0, false, none⟩)], 0⟩).2.2
    ⟨SegType.media, 0, 5, Payload.mediaItem ⟨"x", MediaType.video, 5⟩⟩
    ⟨"x", MediaType.video, 5⟩ ⟨0, false, none⟩ hcs (by decide) (by decide)

/-- C7: a timeUpdate arriving less than 33 ms after the previously accepted
one changes nothing; an accepted one received while playing the matching
media segment publishes `min(segment.startTime + backend.currentTime,
totalDuration)`, which lies in `[0, totalDuration]` whenever the segment
start, the backend position and the total duration are nonnegative. -/
theorem claim7_time_update (segments : List Segment) (totalDur : ℚ)
    (st : PreviewState) (now : ℚ) (videoId : String) :
    (now - st.lastUpdate < 33 →
      handleVideoTimeUpdate segments totalDur st now videoId = st) ∧
    (33 ≤ now - st.lastUpdate →
      ∀ video seg, lookupBackend videoId st.backends = some video →
        currentSegment segments st.previewTime = some seg →
        seg.type = SegType.media → payloadId seg.item = some videoId →
        st.isPlaying = true →
        (handleVideoTimeUpdate segments totalDur st now videoId).previewTime =
          min (seg.startTime + video.currentTime) totalDur ∧
        (0 ≤ seg.startTime → 0 ≤ video.currentTime → 0 ≤ totalDur →
          0 ≤ (handleVideoTimeUpdate segments totalDur st now videoId).previewTime ∧
          (handleVideoTimeUpdate segments totalDur st now videoId).previewTime ≤
            totalDur)) := by
  constructor
  · intro hlt
    rw [handleVideoTimeUpdate, if_pos hlt]
  · intro hge video seg hlb hcs htype hid hplay
    have hnot : ¬ (now - st.lastUpdate < 33) := not_lt_of_le hge
    have heq : (handleVideoTimeUpdate segments totalDur st now videoId).previewTime =
        min (seg.startTime + video.currentTime) totalDur := by
      rw [handleVideoTimeUpdate, if_neg hnot]
      dsimp only
      rw [hlb, hcs]
      dsimp only
      rw [if_pos ⟨htype, hid, hplay⟩]
    refine ⟨heq, fun hs hv ht => ?_⟩
    rw [heq]
    exact ⟨le_min (by linarith) ht, min_le_right _ _⟩

/-- Witness for C7 on the `[5, 3, 4]` timeline, play head 9 on segment 2
(video "c", start 8, backend at 2, total 12): a notification at 10 ms is
ignored; one at 100 ms publishes min(8+2, 12) = 10, inside the range. -/
theorem claim7_time_update_witness :
    handleVideoTimeUpdate (buildSegments sampleFiles blankCover) 12
      ⟨9, true, [("c", ⟨2, false, none⟩)], 0⟩ 10 "c" =
      ⟨9, true, [("c", ⟨2, false, none⟩)], 0⟩ ∧
    (handleVideoTimeUpdate (buildSegments sampleFiles blankCover) 12
      ⟨9, true, [("c", ⟨2, false, none⟩)], 0⟩ 100 "c").previewTime = 10 := by
  have hord : SegsOrdered (buildSegments sampleFiles blankCover) := by
    rw [SegsOrdered, NonNegWidths, buildSegments_sample_blank]
    decide
  have hidx : findSegmentIndex (buildSegments sampleFiles blankCover) 9 = 2 :=
    findSegmentIndex_hit (buildSegments sampleFiles blankCover) 9 2 hord
      (by rw [buildSegments_sample_blank]; decide)
      (by rw [buildSegments_sample_blank]; decide)
      (by rw [buildSegments_sample_blank]; decide)
  have hcs : currentSegment (buildSegments sampleFiles blankCover) 9 =
      some ⟨SegType.media, 8, 12, Payload.mediaItem ⟨"c", MediaType.video, 4⟩⟩ := by
    rw [currentSegment]
    rw [hidx, if_pos (by norm_num : (0:ℤ) ≤ 2), buildSegments_sample_blank]
    rfl
  constructor
  · exact (claim7_time_update (buildSegments sampleFiles blankCover) 12
      ⟨9, true, [("c", ⟨2, false, none⟩)], 0⟩ 10 "c").1 (by norm_num)
  · have h := (claim7_time_update (buildSegments sampleFiles blankCover) 12
        ⟨9, true, [("c", ⟨2, false, none⟩)], 0⟩ 100 "c").2 (by norm_num)
      ⟨2, false, none⟩ ⟨SegType.media, 8, 12, Payload.mediaItem ⟨"c", MediaType.video, 4⟩⟩
      (by decide) hcs rfl rfl rfl
    rw [h.1, min_eq_left (by norm_num)]
    norm_num

/-- C8: with the empty segment list `locate` returns `-1` and the
play-toggle entry point leaves the state unchanged. -/
theorem claim8_empty_inert (time : ℚ) (totalDur : ℚ) (st : PreviewState) :
    findSegmentIndex [] time = -1 ∧ togglePlay [] totalDur st = st :=
  ⟨rfl, rfl⟩

end QuickCuts
